import Mathlib

/-!
Verification of the crawler core of the zen-binran-search repository.

The crawler (a single Deno script) fetches pages of one Google Sites site,
extracts text, writes one text file per page plus one JSON index, and follows
in-scope links breadth-first.  This file gives a shallow embedding of that
script: the pure helpers (`normalizeUrl`, `isValidUrlToCrawl`,
`urlToFilename`) become Lean functions over a model of the platform URL
class; the effectful parts (`fetchWithRetry`, `processUrl`, `main`) become
state-passing functions over an explicit `World` of fetch/parse/write
outcomes, emitting an event trace.  The cooperative single-process
scheduler of the source is modelled by sequential execution in batch order
(the pool never interleaves the visited-check and visited-mark of a URL
with another task, and a layer completes before the next begins).
-/

namespace ZenBinran

/-! ## Model of the platform URL class

The script uses the WHATWG `URL` class (`new URL(url)`, `new URL(href, base)`,
`url.protocol`, `url.hostname`, `url.pathname`, `url.search`, `url.hash`,
`url.toString()`, and the `hash` setter).  The model below implements the
fragment of the standard the script exercises: absolute hierarchical URLs
`scheme://host[:port]path[?query][#fragment]` with lowercase scheme and host
letters.  Simplifications (documented, none affects a claim): no percent
encoding, no dot-segment removal, no userinfo, uppercase scheme or host
letters are a parse failure instead of being lowercased, and non-special
schemes without an authority (such as mailto) are a parse failure. -/

/-- A parsed URL.  `query = none` means no `?` was present, `some q` keeps
the text after `?`; likewise `fragment` for `#`. -/
structure URLObj where
  scheme : List Char
  host : List Char
  port : Option (List Char)
  path : List Char
  query : Option (List Char)
  fragment : Option (List Char)
deriving DecidableEq, Repr

/-- Characters the model accepts in a scheme (lowercase ASCII letters). -/
def isSchemeChar (c : Char) : Bool := c.isLower

/-- Characters the model accepts in a hostname. -/
def isHostChar (c : Char) : Bool := c.isLower || c.isDigit || c == '.' || c == '-'

/-- Characters that stay inside the authority section of a URL string. -/
def isAuthChar (c : Char) : Bool := !(c == '/' || c == '?' || c == '#')

/-- Characters that stay inside the path section. -/
def isPathChar (c : Char) : Bool := !(c == '?' || c == '#')

/-- Characters that stay inside the query section. -/
def isQueryChar (c : Char) : Bool := !(c == '#')

/-- Split a list at the first occurrence of `sep`; `none` if absent. -/
def splitFirst (sep : Char) : List Char → Option (List Char × List Char)
  | [] => none
  | c :: cs =>
    if c = sep then some ([], cs)
    else (splitFirst sep cs).map (fun p => (c :: p.1, p.2))

/-- Parse the authority section `host[:port]`. -/
def parseAuthority (auth : List Char) : Option (List Char × Option (List Char)) :=
  match splitFirst ':' auth with
  | none =>
    if !auth.isEmpty && auth.all isHostChar then some (auth, none) else none
  | some (h, p) =>
    if !h.isEmpty && h.all isHostChar && !p.isEmpty && p.all Char.isDigit then
      some (h, some p)
    else none

/-- Split `path[?query][#fragment]` into its three sections. -/
def parsePQF (rest : List Char) : List Char × Option (List Char) × Option (List Char) :=
  let path := rest.takeWhile isPathChar
  let r1 := rest.dropWhile isPathChar
  match r1 with
  | '?' :: r2 =>
    let q := r2.takeWhile isQueryChar
    let r3 := r2.dropWhile isQueryChar
    match r3 with
    | '#' :: f => (path, some q, some f)
    | _ => (path, some q, none)
  | '#' :: f => (path, none, some f)
  | _ => (path, none, none)

/-- Parse an absolute URL string (model of `new URL(url)`; `none` models the
constructor throwing). -/
def parseList (s : List Char) : Option URLObj :=
  match splitFirst ':' s with
  | none => none
  | some (scheme, rest) =>
    if !scheme.isEmpty && scheme.all isSchemeChar then
      match rest with
      | '/' :: '/' :: rest2 =>
        match parseAuthority (rest2.takeWhile isAuthChar) with
        | none => none
        | some (h, p) =>
          match parsePQF (rest2.dropWhile isAuthChar) with
          | (path0, q, f) =>
            some ⟨scheme, h, p, if path0.isEmpty then ['/'] else path0, q, f⟩
      | _ => none
    else none

/-- A `c`-introduced optional section of a serialized URL (`:port`,
`?query`, `#fragment`); empty when absent. -/
def optPart (c : Char) : Option (List Char) → List Char
  | none => []
  | some x => c :: x

/-- Serialization (model of `url.toString()`). -/
def URLObj.toList (u : URLObj) : List Char :=
  u.scheme ++ ':' :: '/' :: '/' :: u.host
    ++ optPart ':' u.port
    ++ u.path
    ++ optPart '?' u.query
    ++ optPart '#' u.fragment

/-- Model of `url.protocol` (scheme plus the colon). -/
def URLObj.protocol (u : URLObj) : String := String.mk (u.scheme ++ [':'])

/-- Model of `url.hostname`. -/
def URLObj.hostname (u : URLObj) : String := String.mk u.host

/-- Model of `url.pathname`. -/
def URLObj.pathname (u : URLObj) : String := String.mk u.path

/-- Model of `url.search`: empty unless a nonempty query is present. -/
def URLObj.searchList (u : URLObj) : List Char :=
  match u.query with
  | none => []
  | some [] => []
  | some q => '?' :: q

/-- Model of `url.hash`: empty unless a nonempty fragment is present. -/
def URLObj.hashList (u : URLObj) : List Char :=
  match u.fragment with
  | none => []
  | some [] => []
  | some f => '#' :: f

/-- Well-formedness of a `URLObj`: exactly the shape the parser produces. -/
def URLObj.WF (u : URLObj) : Prop :=
  u.scheme.isEmpty = false ∧ u.scheme.all isSchemeChar = true ∧
  u.host.isEmpty = false ∧ u.host.all isHostChar = true ∧
  (∀ p, u.port = some p → p.isEmpty = false ∧ p.all Char.isDigit = true) ∧
  (∃ rest, u.path = '/' :: rest) ∧ u.path.all isPathChar = true ∧
  (∀ q, u.query = some q → q.all isQueryChar = true)

/-! ## Configuration constants (src/unnamed/part_001, lines 7-11) -/

def START_URL : String := "https://sites.google.com/zen.ac.jp/zen-gakuseibinran/home"

def BASE_HOSTNAME : String := "sites.google.com"

def ALLOWED_PATH_PREFIX : String := "/zen.ac.jp/zen-gakuseibinran/"

def DELAY_MS : Nat := 500

def MAX_CONCURRENCY : Nat := 5

/-- Model of `String.prototype.startsWith` on character lists. -/
def listPrefix : List Char → List Char → Bool
  | [], _ => true
  | _ :: _, [] => false
  | p :: ps, c :: cs => p == c && listPrefix ps cs

/-- Model of `String.prototype.trim`: strip leading and trailing whitespace. -/
def trimList (s : List Char) : List Char :=
  ((s.dropWhile Char.isWhitespace).reverse.dropWhile Char.isWhitespace).reverse

/-! ## Embedded helper functions (src/unnamed/part_001) -/

/-- `normalizeUrl` (lines 29-38): parse, clear the hash (the empty-hash
setter nulls the fragment), serialize; on a parse failure the error is
caught and the input is returned unchanged. -/
def normalizeUrl (url : String) : String :=
  match parseList url.data with
  | some urlObj => String.mk (URLObj.toList { urlObj with fragment := none })
  | none => url

/-- `isValidUrlToCrawl` (lines 40-51): the early-return chain of scheme,
hostname and path checks; a parse failure is caught and yields false. -/
def isValidUrlToCrawl (url : String) (baseUrlObj : URLObj) : Bool :=
  match parseList url.data with
  | none => false
  | some currentUrlObj =>
    if !(currentUrlObj.protocol == "http:" || currentUrlObj.protocol == "https:") then false
    else if !(currentUrlObj.hostname == baseUrlObj.hostname) then false
    else if !(listPrefix ALLOWED_PATH_PREFIX.data currentUrlObj.path) then false
    else true

/-- The regex `^\/|\/$` replacement: strip one leading and one trailing
slash. -/
def stripSlashList (s : List Char) : List Char :=
  let s1 := match s with | '/' :: rest => rest | other => other
  match s1.reverse with
  | '/' :: rest => rest.reverse
  | _ => s1

/-- The regex `\//g` replacement: every slash becomes an underscore. -/
def replSlash (s : List Char) : List Char :=
  s.map (fun c => if c == '/' then '_' else c)

/-- The character class `[a-zA-Z0-9_\-\.]` kept by `urlToFilename`. -/
def isKeptChar (c : Char) : Bool :=
  c.isAlphanum || c == '_' || c == '-' || c == '.'

/-- The regex `[^a-zA-Z0-9_\-\.]/g` replacement. -/
def replUnsafe (s : List Char) : List Char :=
  s.map (fun c => if isKeptChar c then c else '_')

/-- `urlToFilename` (lines 53-69).  `now` models `Date.now()`, which the
source interpolates into the fallback name when URL parsing throws. -/
def urlToFilename (url : String) (extension : String) (now : Nat) : String :=
  match parseList url.data with
  | some urlObj =>
    let f1 := replUnsafe (replSlash (stripSlashList
      (urlObj.path ++ urlObj.searchList ++ urlObj.hashList)))
    let f2 := if f1.isEmpty then ("index").data else f1
    let f3 := if f2.length > 100 then f2.drop (f2.length - 100) else f2
    String.mk f3 ++ extension
  | none => "invalid_url_" ++ toString now ++ extension

/-! ## Fetcher (lines 71-102) -/

/-- Outcome of one `fetch` call: a response with some status, or a thrown
error. -/
inductive AttemptOutcome
  | response (status : Nat) (body : String)
  | thrown
deriving DecidableEq, Repr

structure Response where
  status : Nat
  body : String
deriving DecidableEq, Repr

/-- Model of `Response.ok`: status in the range 200-299. -/
def Response.ok (r : Response) : Bool := 200 ≤ r.status && r.status ≤ 299

/-- Whether an attempt outcome passes the `response.ok` check (a thrown
error or a non-2xx status is a failed attempt). -/
def attemptOk : AttemptOutcome → Bool
  | .response st _ => 200 ≤ st && st ≤ 299
  | .thrown => false

def respOf : AttemptOutcome → Response
  | .response st body => ⟨st, body⟩
  | .thrown => ⟨0, ""⟩

/-- Events of one `fetchWithRetry` call: sleeps and numbered attempts. -/
inductive FEvent
  | fsleep (ms : Nat)
  | fattempt (i : Nat)
deriving DecidableEq, Repr

/-- The `for` loop of `fetchWithRetry`, indexed by the attempt counter `i`
with `fuel = retries - i`.  Each iteration sleeps the politeness delay,
performs attempt `i` (`oracle i` is its outcome), returns the response when
`response.ok`, rethrows at the last attempt, and otherwise sleeps the
linear backoff `delay * (i + 1)` and retries; the fuel-exhausted case is
the throw after the loop (reachable only when `retries = 0`). -/
def fetchWithRetryGo (oracle : Nat → AttemptOutcome) (retries delay : Nat) :
    Nat → Nat → Except Unit Response × List FEvent
  | _, 0 => (.error (), [])
  | i, fuel + 1 =>
    if attemptOk (oracle i) then
      (.ok (respOf (oracle i)), [.fsleep DELAY_MS, .fattempt i])
    else if i = retries - 1 then
      (.error (), [.fsleep DELAY_MS, .fattempt i])
    else
      ((fetchWithRetryGo oracle retries delay (i + 1) fuel).1,
        .fsleep DELAY_MS :: .fattempt i :: .fsleep (delay * (i + 1)) ::
          (fetchWithRetryGo oracle retries delay (i + 1) fuel).2)

/-- `fetchWithRetry(url, retries = 3, delay = 1000)`: run the loop from
attempt 0. -/
def fetchWithRetry (oracle : Nat → AttemptOutcome) (retries delay : Nat) :
    Except Unit Response × List FEvent :=
  fetchWithRetryGo oracle retries delay 0 retries

/-! ## Page processor and crawl driver (lines 104-240) -/

/-- A parsed HTML document as the script consumes it: the `textContent` of
the first main-content selector match (if an element matched), the
`textContent` of `document.body` (if a body exists), and the `href`
attribute of each anchor element in document order. -/
structure HtmlDoc where
  mainText : Option String
  bodyText : Option String
  anchors : List (Option String)
deriving DecidableEq, Repr

/-- One entry of the `scrapedData` array. -/
structure ScrapedRecord where
  url : String
  content : String
deriving DecidableEq, Repr

/-- The mutable crawl state of the script: `visitedUrls`, `scrapedData`,
plus the text files written so far. -/
structure CrawlState where
  visitedUrls : List String
  scrapedData : List ScrapedRecord
  files : List (String × String)
deriving DecidableEq, Repr

/-- The environment of one run: per-URL fetch attempt outcomes, the
`DOMParser` (null result on parse failure), whether `Deno.writeTextFile`
throws for a path, the clock, and the output-directory date stamp. -/
structure World where
  oracle : String → Nat → AttemptOutcome
  parseHtml : String → Option HtmlDoc
  writeFails : String → Bool
  now : Nat
  dateStamp : String

/-- `OUTPUT_DIR` (line 16). -/
def OUTPUT_DIR (w : World) : String := "./text-" ++ w.dateStamp

/-- Events of the crawl: worker dispatch, the visited mark, the
`fetchWithRetry` call, the extraction step, the text-file write, and the
`scrapedData` push. -/
inductive PEvent
  | dispatch (url : String)
  | mark (url : String)
  | fetch (url : String)
  | extract (url : String)
  | write (path : String)
  | record (url : String)
deriving DecidableEq, Repr

/-- The text-extraction step (lines 131-135): the main-content region if
one matched, else the body text, trimmed; empty when neither exists. -/
def extractedText (doc : HtmlDoc) : String :=
  match doc.mainText with
  | some t => String.mk (trimList t.data)
  | none =>
    match doc.bodyText with
    | some t => String.mk (trimList t.data)
    | none => ""

/-- `new URL(START_URL)` (line 112); `START_URL` parses, see
`parse_START_URL`. -/
def startUrlObj : URLObj :=
  match parseList START_URL.data with
  | some u => u
  | none => ⟨[], [], none, ['/'], none, none⟩

/-- The base path up to and including its last slash (for relative-path
resolution). -/
def dirOf (path : List Char) : List Char :=
  (path.reverse.dropWhile (fun c => !(c == '/'))).reverse

/-- Whether a string starts with a scheme.  Such strings are parsed
absolutely and never resolved against the base, mirroring the standard:
a malformed absolute URL makes the constructor throw even with a base. -/
def looksAbsolute (s : List Char) : Bool :=
  match splitFirst ':' s with
  | some (sch, _) => !sch.isEmpty && sch.all isSchemeChar
  | none => false

/-- Model of `new URL(href, base)` resolution for the relative forms pages
use: protocol-relative, path-absolute, query-only, fragment-only, empty,
and relative-path references (without dot-segment removal). -/
def resolveList (href : List Char) (base : URLObj) : Option URLObj :=
  if looksAbsolute href then parseList href
  else
    match href with
    | '/' :: '/' :: _ => parseList (base.scheme ++ ':' :: href)
    | '/' :: _ =>
      match parsePQF href with
      | (p0, q, f) =>
        some { base with path := if p0.isEmpty then ['/'] else p0, query := q, fragment := f }
    | '?' :: _ =>
      match parsePQF href with
      | (_, q, f) => some { base with query := q, fragment := f }
    | '#' :: f => some { base with fragment := some f }
    | [] => some { base with fragment := none }
    | _ =>
      match parsePQF href with
      | (p0, q, f) =>
        some { base with path := dirOf base.path ++ p0, query := q, fragment := f }

/-- `new URL(href, url)` (line 161): the base string is parsed first; a
failure of either step throws into the inner catch. -/
def resolveHref (href url : String) : Option URLObj :=
  match parseList url.data with
  | none => none
  | some base => resolveList href.data base

/-- The anchor loop (lines 156-172): resolve each `href` against the page
URL, normalize, and keep it when in scope and not yet visited; a resolution
failure is caught by the inner catch and skips only that link. -/
def collectLinks (anchors : List (Option String)) (url : String) (visited : List String) :
    List String :=
  match anchors with
  | [] => []
  | none :: rest => collectLinks rest url visited
  | some href :: rest =>
    match resolveHref href url with
    | none => collectLinks rest url visited
    | some uObj =>
      if isValidUrlToCrawl (normalizeUrl (String.mk uObj.toList)) startUrlObj
          && !(visited.contains (normalizeUrl (String.mk uObj.toList))) then
        normalizeUrl (String.mk uObj.toList) :: collectLinks rest url visited
      else
        collectLinks rest url visited

/-- `processUrl` (lines 111-179), state-passing with an event trace.  The
outer try/catch is the error branches of the fetch and write steps: state
changes made before a throw persist, and the function always returns
(errors never propagate).  The visited mark (line 117) precedes the fetch. -/
def processUrl (w : World) (st : CrawlState) (url : String) :
    List String × CrawlState × List PEvent :=
  if st.visitedUrls.contains url || !(isValidUrlToCrawl url startUrlObj) then
    ([], st, [])
  else
    match (fetchWithRetry (w.oracle url) 3 1000).1 with
    | .error _ =>
      ([], { st with visitedUrls := url :: st.visitedUrls }, [.mark url, .fetch url])
    | .ok resp =>
      match w.parseHtml resp.body with
      | none =>
        ([], { st with visitedUrls := url :: st.visitedUrls }, [.mark url, .fetch url])
      | some doc =>
        if extractedText doc ≠ "" then
          if w.writeFails (OUTPUT_DIR w ++ "/" ++ urlToFilename url (".txt") w.now) then
            ([], { st with visitedUrls := url :: st.visitedUrls },
              [.mark url, .fetch url, .extract url,
                .write (OUTPUT_DIR w ++ "/" ++ urlToFilename url (".txt") w.now)])
          else
            (collectLinks doc.anchors url (url :: st.visitedUrls),
              { visitedUrls := url :: st.visitedUrls,
                scrapedData := st.scrapedData ++ [⟨url, extractedText doc⟩],
                files := st.files ++
                  [(OUTPUT_DIR w ++ "/" ++ urlToFilename url (".txt") w.now, extractedText doc)] },
              [.mark url, .fetch url, .extract url,
                .write (OUTPUT_DIR w ++ "/" ++ urlToFilename url (".txt") w.now), .record url])
        else
          (collectLinks doc.anchors url (url :: st.visitedUrls),
            { st with visitedUrls := url :: st.visitedUrls },
            [.mark url, .fetch url, .extract url])

/-- One BFS batch run through `pooledMap` (lines 202-206).  Under the
cooperative scheduler no task interleaves between the visited check and
mark, the batch completes before the next layer starts, and results are
modelled arriving in batch order. -/
def processBatch (w : World) (batch : List String) (st : CrawlState) :
    List String × CrawlState × List PEvent :=
  match batch with
  | [] => ([], st, [])
  | url :: rest =>
    (((processUrl w st url).1 ++ (processBatch w rest (processUrl w st url).2.1).1),
      (processBatch w rest (processUrl w st url).2.1).2.1,
      PEvent.dispatch url :: (processUrl w st url).2.2
        ++ (processBatch w rest (processUrl w st url).2.1).2.2)

/-- Frontier construction (lines 208-214): each arriving new URL joins the
cleared `activeUrls` set when not yet visited (set insertion dedups). -/
def buildFrontier (newUrls visited acc : List String) : List String :=
  match newUrls with
  | [] => acc
  | u :: rest =>
    if !(visited.contains u) && !(acc.contains u) then
      buildFrontier rest visited (acc ++ [u])
    else
      buildFrontier rest visited acc

/-- The `while (activeUrls.size > 0)` loop of `main` (lines 196-216), with
explicit fuel for termination (the crawled site is finite).  Returns the
final state, the list of per-layer batches, and the event trace. -/
def crawlLoop (w : World) : Nat → List String → CrawlState → CrawlState × List (List String) × List PEvent
  | 0, _, st => (st, [], [])
  | fuel + 1, frontier, st =>
    if frontier.isEmpty then (st, [], [])
    else
      ((crawlLoop w fuel
          (buildFrontier (processBatch w frontier st).1 (processBatch w frontier st).2.1.visitedUrls [])
          (processBatch w frontier st).2.1).1,
        frontier :: (crawlLoop w fuel
          (buildFrontier (processBatch w frontier st).1 (processBatch w frontier st).2.1.visitedUrls [])
          (processBatch w frontier st).2.1).2.1,
        (processBatch w frontier st).2.2 ++ (crawlLoop w fuel
          (buildFrontier (processBatch w frontier st).1 (processBatch w frontier st).2.1.visitedUrls [])
          (processBatch w frontier st).2.1).2.2)

/-- `main` (lines 183-240): the crawl starts from the normalized start URL
with empty visited set and empty data. -/
def runCrawl (w : World) (fuel : Nat) : CrawlState × List (List String) × List PEvent :=
  crawlLoop w fuel [normalizeUrl START_URL] ⟨[], [], []⟩

/-! ## Definitions supporting the claim statements -/

/-- The trace of one failed non-final attempt: politeness sleep, attempt
`k`, linear backoff of `delay * (k + 1)` (the wait after the `n`-th failed
attempt is `delay * n` for `n = k + 1`). -/
def failBlock (delay k : Nat) : List FEvent :=
  [.fsleep DELAY_MS, .fattempt k, .fsleep (delay * (k + 1))]

/-- `isInScope`, written from the words of the specification: true iff the
URL parses, its scheme is http or https, its hostname equals the hostname
of the base exactly, and its path starts with the configured allowed
path start; any parse failure yields false. -/
def isInScope (url : String) (base : URLObj) : Bool :=
  match parseList url.data with
  | none => false
  | some u =>
    (u.scheme == ("http").data || u.scheme == ("https").data)
      && u.hostname == base.hostname
      && listPrefix ALLOWED_PATH_PREFIX.data u.path

/-- The claim says the name is built with slashes and non-alphanumeric
characters replaced (the replacement character being the underscore), so
every character of a derived name would be alphanumeric or an underscore. -/
def allReplacedClaim (s : String) : Bool :=
  s.data.all (fun c => c.isAlphanum || c == '_')

/-- The dispatch sub-trace of a crawl trace: the URLs handed to workers, in
order. -/
def dispatched (tr : List PEvent) : List String :=
  tr.filterMap (fun e => match e with | .dispatch u => some u | _ => none)

/-- A minimal test world: every fetch attempt throws, nothing parses,
writes succeed. -/
def wEx : World :=
  ⟨fun _ _ => .thrown, fun _ => none, fun _ => false, 0, "20250412"⟩

/-- A test world where fetching succeeds and the page parses to a document
with no text and two anchors: `http://`, whose resolution throws (it looks
absolute but is malformed, so the base does not rescue it), and one
in-scope absolute link. -/
def wC8 : World :=
  ⟨fun _ _ => .response 200 ("page"),
   fun _ => some ⟨none, none,
     [some ("http://"), some ("https://sites.google.com/zen.ac.jp/zen-gakuseibinran/p2")]⟩,
   fun _ => false, 0, "20250412"⟩

/-- A test world where fetching and parsing succeed, the page has text, and
every file write throws. -/
def wC9 : World :=
  ⟨fun _ _ => .response 200 ("page"),
   fun _ => some ⟨some ("hello"), none, []⟩,
   fun _ => true, 0, "20250412"⟩

/-- The filename derivation as the amended claim words it: concatenate
pathname, search and hash; strip one leading and one trailing slash;
replace every remaining slash and every character outside
alphanumerics, underscore, hyphen and dot by an underscore; default to
"index" when the result is empty; when longer than 100 characters keep
exactly the last 100; append the extension. -/
def filenameSpec (u : URLObj) (extension : String) : String :=
  let stem1 := replUnsafe (replSlash (stripSlashList (u.path ++ u.searchList ++ u.hashList)))
  let stem2 := if stem1.isEmpty then ("index").data else stem1
  let stem3 := if stem2.length > 100 then stem2.drop (stem2.length - 100) else stem2
  String.mk stem3 ++ extension

/-! ### Helper lemmas about splitting and scanning character lists -/

theorem splitFirst_eq_none (sep : Char) (xs : List Char) (h : ∀ x ∈ xs, x ≠ sep) :
    splitFirst sep xs = none := by
  induction xs with
  | nil => rfl
  | cons c cs ih =>
    simp only [splitFirst]
    rw [if_neg (h c (by simp)), ih (fun x hx => h x (by simp [hx]))]
    rfl

theorem splitFirst_append (sep : Char) (xs ys : List Char) (h : ∀ x ∈ xs, x ≠ sep) :
    splitFirst sep (xs ++ sep :: ys) = some (xs, ys) := by
  induction xs with
  | nil => simp [splitFirst]
  | cons c cs ih =>
    have hrec := ih (fun x hx => h x (by simp [hx]))
    simp only [List.cons_append, splitFirst]
    rw [if_neg (h c (by simp))]
    simp only [List.append_eq]
    rw [hrec]
    rfl

theorem all_mono {p q : Char → Bool} (xs : List Char) (h : xs.all p = true)
    (himp : ∀ c, p c = true → q c = true) : xs.all q = true := by
  induction xs with
  | nil => rfl
  | cons c cs ih =>
    simp only [List.all_cons, Bool.and_eq_true] at h ⊢
    exact ⟨himp c h.1, ih h.2⟩

theorem takeWhile_all_eq (p : Char → Bool) (xs : List Char) (h : xs.all p = true) :
    xs.takeWhile p = xs ∧ xs.dropWhile p = [] := by
  induction xs with
  | nil => exact ⟨rfl, rfl⟩
  | cons c cs ih =>
    simp only [List.all_cons, Bool.and_eq_true] at h
    obtain ⟨ih1, ih2⟩ := ih h.2
    constructor
    · simp [List.takeWhile_cons, h.1, ih1]
    · simp [List.dropWhile_cons, h.1, ih2]

theorem takeWhile_append_stop (p : Char → Bool) (xs : List Char) (y : Char) (ys : List Char)
    (hall : xs.all p = true) (hy : p y = false) :
    (xs ++ y :: ys).takeWhile p = xs ∧ (xs ++ y :: ys).dropWhile p = y :: ys := by
  induction xs with
  | nil =>
    constructor
    · simp [List.takeWhile_cons, hy]
    · simp [List.dropWhile_cons, hy]
  | cons c cs ih =>
    simp only [List.all_cons, Bool.and_eq_true] at hall
    obtain ⟨ih1, ih2⟩ := ih hall.2
    constructor
    · simp [List.takeWhile_cons, hall.1, ih1]
    · simp [List.dropWhile_cons, hall.1, ih2]

theorem all_takeWhile (p : Char → Bool) (xs : List Char) :
    (xs.takeWhile p).all p = true := by
  induction xs with
  | nil => rfl
  | cons c cs ih =>
    by_cases h : p c = true
    · simp [List.takeWhile_cons, h, ih]
    · simp [List.takeWhile_cons, Bool.eq_false_iff.mpr h]

theorem dropWhile_shape (p : Char → Bool) (xs : List Char) :
    xs.dropWhile p = [] ∨ ∃ y ys, xs.dropWhile p = y :: ys ∧ p y = false := by
  induction xs with
  | nil => exact Or.inl rfl
  | cons c cs ih =>
    by_cases h : p c = true
    · simpa [List.dropWhile_cons, h] using ih
    · exact Or.inr ⟨c, cs, by simp [List.dropWhile_cons, Bool.eq_false_iff.mpr h],
        Bool.eq_false_iff.mpr h⟩

/-! ### Character-class facts -/

theorem isSchemeChar_ne_colon {c : Char} (h : isSchemeChar c = true) : c ≠ ':' := by
  intro he
  subst he
  exact absurd h (by decide)

theorem isHostChar_ne_colon {c : Char} (h : isHostChar c = true) : c ≠ ':' := by
  intro he
  subst he
  exact absurd h (by decide)

theorem isHostChar_isAuthChar {c : Char} (h : isHostChar c = true) : isAuthChar c = true := by
  by_cases h1 : c = '/'
  · subst h1; exact absurd h (by decide)
  by_cases h2 : c = '?'
  · subst h2; exact absurd h (by decide)
  by_cases h3 : c = '#'
  · subst h3; exact absurd h (by decide)
  simp [isAuthChar, beq_iff_eq, h1, h2, h3]

theorem isDigit_isAuthChar {c : Char} (h : c.isDigit = true) : isAuthChar c = true := by
  by_cases h1 : c = '/'
  · subst h1; exact absurd h (by decide)
  by_cases h2 : c = '?'
  · subst h2; exact absurd h (by decide)
  by_cases h3 : c = '#'
  · subst h3; exact absurd h (by decide)
  simp [isAuthChar, beq_iff_eq, h1, h2, h3]

theorem isPathChar_isAuthChar_of_ne {c : Char} (h : isAuthChar c = false) :
    c = '/' ∨ c = '?' ∨ c = '#' := by
  simp only [isAuthChar, Bool.not_eq_false', Bool.or_eq_true, beq_iff_eq] at h
  tauto

/-! ### Parse/serialize roundtrip -/

theorem parseAuthority_encode (h : List Char) (p : Option (List Char))
    (hh1 : h.isEmpty = false) (hh2 : h.all isHostChar = true)
    (hp : ∀ x, p = some x → x.isEmpty = false ∧ x.all Char.isDigit = true) :
    parseAuthority (h ++ optPart ':' p) = some (h, p) := by
  have hcol : ∀ x ∈ h, x ≠ ':' :=
    fun x hx => isHostChar_ne_colon (List.all_eq_true.mp hh2 x hx)
  cases p with
  | none =>
    simp only [optPart, List.append_nil, parseAuthority]
    rw [splitFirst_eq_none ':' h hcol]
    simp [hh1, hh2]
  | some x =>
    obtain ⟨hx1, hx2⟩ := hp x rfl
    simp only [optPart, parseAuthority]
    rw [splitFirst_append ':' h x hcol]
    simp [hh1, hh2, hx1, hx2]

theorem parsePQF_encode (path : List Char) (q f : Option (List Char))
    (hp : path.all isPathChar = true)
    (hq : ∀ x, q = some x → x.all isQueryChar = true) :
    parsePQF (path ++ (optPart '?' q ++ optPart '#' f)) = (path, q, f) := by
  cases q with
  | none =>
    cases f with
    | none =>
      obtain ⟨h1, h2⟩ := takeWhile_all_eq isPathChar path hp
      simp [optPart, parsePQF, h1, h2]
    | some x =>
      obtain ⟨h1, h2⟩ := takeWhile_append_stop isPathChar path '#' x hp (by decide)
      simp [optPart, parsePQF, h1, h2]
  | some xq =>
    have hxq := hq xq rfl
    cases f with
    | none =>
      obtain ⟨h1, h2⟩ := takeWhile_append_stop isPathChar path '?' xq hp (by decide)
      obtain ⟨h3, h4⟩ := takeWhile_all_eq isQueryChar xq hxq
      simp [optPart, parsePQF, h1, h2, h3, h4]
    | some xf =>
      obtain ⟨h1, h2⟩ := takeWhile_append_stop isPathChar path '?' (xq ++ '#' :: xf) hp (by decide)
      obtain ⟨h3, h4⟩ := takeWhile_append_stop isQueryChar xq '#' xf hxq (by decide)
      simp only [optPart, List.cons_append, List.append_assoc] at h1 h2 ⊢
      simp [parsePQF, h1, h2, h3, h4]

theorem parse_toList {u : URLObj} (hwf : u.WF) : parseList u.toList = some u := by
  obtain ⟨scheme, host, port, path, query, fragment⟩ := u
  obtain ⟨hs1, hs2, hh1, hh2, hp, hpath, hpc, hq⟩ := hwf
  simp only at hs1 hs2 hh1 hh2 hp hpath hpc hq
  obtain ⟨prest, hpe⟩ := hpath
  subst hpe
  have hsal : ∀ x ∈ scheme, x ≠ ':' :=
    fun x hx => isSchemeChar_ne_colon (List.all_eq_true.mp hs2 x hx)
  have hhauth : host.all isAuthChar = true :=
    all_mono host hh2 (fun c hc => isHostChar_isAuthChar hc)
  have hMauth : (optPart ':' port).all isAuthChar = true := by
    cases hpo : port with
    | none => rfl
    | some x =>
      obtain ⟨hx1, hx2⟩ := hp x hpo
      simp only [optPart, List.all_cons, Bool.and_eq_true]
      exact ⟨by decide, all_mono x hx2 (fun c hc => isDigit_isAuthChar hc)⟩
  have hstop := takeWhile_append_stop isAuthChar
    (host ++ optPart ':' port) '/'
    (prest ++ (optPart '?' query ++ optPart '#' fragment))
    (by rw [List.all_append]; simp [hhauth, hMauth]) (by decide)
  have hpqf := parsePQF_encode ('/' :: prest) query fragment hpc hq
  have hpa := parseAuthority_encode host port hh1 hh2 hp
  have harg : URLObj.toList ⟨scheme, host, port, '/' :: prest, query, fragment⟩ =
      scheme ++ ':' :: ('/' :: '/' :: ((host ++ optPart ':' port)
        ++ '/' :: (prest ++ (optPart '?' query ++ optPart '#' fragment)))) := by
    simp [URLObj.toList, List.append_assoc, List.cons_append]
  rw [harg]
  simp only [parseList]
  rw [splitFirst_append ':' scheme _ hsal]
  simp only [List.cons_append] at hpqf
  simp only [hs1, hs2, Bool.not_false, Bool.and_self, if_true, hstop.1, hstop.2, hpa, hpqf]
  simp

/-! ### Parser soundness: every parse result is well-formed -/

theorem parseAuthority_sound {a h : List Char} {p : Option (List Char)}
    (hpa : parseAuthority a = some (h, p)) :
    h.isEmpty = false ∧ h.all isHostChar = true ∧
      (∀ x, p = some x → x.isEmpty = false ∧ x.all Char.isDigit = true) := by
  unfold parseAuthority at hpa
  split at hpa
  · split at hpa
    · rename_i hcond
      simp only [Bool.and_eq_true, Bool.not_eq_eq_eq_not, Bool.not_true] at hcond
      simp only [Option.some.injEq, Prod.mk.injEq] at hpa
      obtain ⟨rfl, rfl⟩ := hpa
      exact ⟨hcond.1, hcond.2, fun x hx => by cases hx⟩
    · cases hpa
  · split at hpa
    · rename_i h0 p0 hsp hcond
      simp only [Bool.and_eq_true, Bool.not_eq_eq_eq_not, Bool.not_true] at hcond
      simp only [Option.some.injEq, Prod.mk.injEq] at hpa
      obtain ⟨rfl, rfl⟩ := hpa
      refine ⟨hcond.1.1.1, hcond.1.1.2, fun x hx => ?_⟩
      cases hx
      exact ⟨hcond.1.2, hcond.2⟩
    · cases hpa

theorem parsePQF_path (r : List Char) : (parsePQF r).1 = r.takeWhile isPathChar := by
  simp only [parsePQF]
  split
  · split <;> rfl
  · rfl
  · rfl

theorem parsePQF_query {r : List Char} {x : List Char}
    (hx : (parsePQF r).2.1 = some x) : x.all isQueryChar = true := by
  simp only [parsePQF] at hx
  split at hx
  · split at hx
    all_goals
      simp only [Option.some.injEq] at hx
      subst hx
      exact all_takeWhile isQueryChar _
  · cases hx
  · cases hx

theorem parseList_WF {s : List Char} {u : URLObj} (h : parseList s = some u) : u.WF := by
  unfold parseList at h
  split at h
  · cases h
  · rename_i scheme rest hsp
    split at h
    · rename_i hcond
      simp only [Bool.and_eq_true, Bool.not_eq_eq_eq_not, Bool.not_true] at hcond
      split at h
      · rename_i rest2
        split at h
        · cases h
        · rename_i hostp hh hp hpa
          split at h
          rename_i path0 q f hpqf
          simp only [Option.some.injEq] at h
          subst h
          obtain ⟨ha1, ha2, ha3⟩ := parseAuthority_sound hpa
          have hq : ∀ x, q = some x → x.all isQueryChar = true := by
            intro x hx
            exact parsePQF_query (by rw [hpqf, hx])
          have hpath0 : path0 = (rest2.dropWhile isAuthChar).takeWhile isPathChar := by
            have := parsePQF_path (rest2.dropWhile isAuthChar)
            rw [hpqf] at this
            exact this
          refine ⟨hcond.1, hcond.2, ha1, ha2, ha3, ?_, ?_, hq⟩
          · by_cases hpe : path0.isEmpty = true
            · exact ⟨[], by simp [hpe]⟩
            · have hne : (if path0.isEmpty = true then ['/'] else path0) = path0 := by
                simp [hpe]
              rw [hne]
              rcases dropWhile_shape isAuthChar rest2 with hd | ⟨y, ys, hd, hy⟩
              · rw [hd] at hpath0
                simp at hpath0
                exact absurd (by simp [hpath0]) hpe
              · rcases isPathChar_isAuthChar_of_ne hy with rfl | rfl | rfl
                · rw [hd] at hpath0
                  simp only [List.takeWhile_cons] at hpath0
                  rw [if_pos (by decide)] at hpath0
                  exact ⟨_, hpath0⟩
                · rw [hd] at hpath0
                  simp only [List.takeWhile_cons] at hpath0
                  rw [if_neg (by decide)] at hpath0
                  exact absurd (by simp [hpath0]) hpe
                · rw [hd] at hpath0
                  simp only [List.takeWhile_cons] at hpath0
                  rw [if_neg (by decide)] at hpath0
                  exact absurd (by simp [hpath0]) hpe
          · split
            · rfl
            · rw [hpath0]
              exact all_mono _ (all_takeWhile isPathChar _) (fun c hc => hc)
      · cases h
    · cases h

/-- `START_URL` parses to `startUrlObj`. -/
theorem parse_START_URL : parseList START_URL.data = some startUrlObj := by decide

/-! ## C3: fetchWithRetry -/

/-- C3: with `maxRetries = 3`, `fetchWithRetry` succeeds whenever some
attempt among the first three has a 2xx response; after 3 consecutive
failed attempts (a thrown error or a non-2xx status) it raises a terminal
error; the trace shows the politeness sleep before every attempt and the
backoff `delay * n` after the `n`-th failed non-final attempt. -/
theorem fetchWithRetry_spec (oracle : Nat → AttemptOutcome) (delay : Nat) :
    ((∃ i, i < 3 ∧ attemptOk (oracle i) = true) →
      ∃ r, (fetchWithRetry oracle 3 delay).1 = .ok r) ∧
    ((∀ i, i < 3 → attemptOk (oracle i) = false) →
      fetchWithRetry oracle 3 delay =
        (.error (), failBlock delay 0 ++ failBlock delay 1 ++ [.fsleep DELAY_MS, .fattempt 2])) ∧
    (∀ j, j < 3 → (∀ k, k < j → attemptOk (oracle k) = false) → attemptOk (oracle j) = true →
      fetchWithRetry oracle 3 delay =
        (.ok (respOf (oracle j)),
          ((List.range j).map (failBlock delay)).flatten ++ [.fsleep DELAY_MS, .fattempt j])) := by
  have e0 : attemptOk (oracle 0) = true →
      fetchWithRetry oracle 3 delay = (.ok (respOf (oracle 0)), [.fsleep DELAY_MS, .fattempt 0]) := by
    intro h0
    simp [fetchWithRetry, fetchWithRetryGo, h0]
  have e1 : attemptOk (oracle 0) = false → attemptOk (oracle 1) = true →
      fetchWithRetry oracle 3 delay =
        (.ok (respOf (oracle 1)), failBlock delay 0 ++ [.fsleep DELAY_MS, .fattempt 1]) := by
    intro h0 h1
    simp [fetchWithRetry, fetchWithRetryGo, h0, h1, failBlock]
  have e2 : attemptOk (oracle 0) = false → attemptOk (oracle 1) = false →
      attemptOk (oracle 2) = true →
      fetchWithRetry oracle 3 delay =
        (.ok (respOf (oracle 2)),
          failBlock delay 0 ++ failBlock delay 1 ++ [.fsleep DELAY_MS, .fattempt 2]) := by
    intro h0 h1 h2
    simp [fetchWithRetry, fetchWithRetryGo, h0, h1, h2, failBlock]
  have e3 : attemptOk (oracle 0) = false → attemptOk (oracle 1) = false →
      attemptOk (oracle 2) = false →
      fetchWithRetry oracle 3 delay =
        (.error (), failBlock delay 0 ++ failBlock delay 1 ++ [.fsleep DELAY_MS, .fattempt 2]) := by
    intro h0 h1 h2
    simp [fetchWithRetry, fetchWithRetryGo, h0, h1, h2, failBlock]
  refine ⟨?_, ?_, ?_⟩
  · rintro ⟨i, hi, hok⟩
    by_cases h0 : attemptOk (oracle 0) = true
    · exact ⟨_, by rw [e0 h0]⟩
    by_cases h1 : attemptOk (oracle 1) = true
    · exact ⟨_, by rw [e1 (Bool.eq_false_iff.mpr h0) h1]⟩
    by_cases h2 : attemptOk (oracle 2) = true
    · exact ⟨_, by rw [e2 (Bool.eq_false_iff.mpr h0) (Bool.eq_false_iff.mpr h1) h2]⟩
    · exfalso
      interval_cases i
      · exact h0 hok
      · exact h1 hok
      · exact h2 hok
  · intro hall
    exact e3 (hall 0 (by omega)) (hall 1 (by omega)) (hall 2 (by omega))
  · intro j hj hmin hok
    interval_cases j
    · rw [e0 hok]
      rfl
    · rw [e1 (hmin 0 (by omega)) hok]
      rfl
    · rw [e2 (hmin 0 (by omega)) (hmin 1 (by omega)) hok]
      rfl

/-- C3 witness: an oracle that throws twice and then returns a 2xx response
recovers within the retry budget, with the expected trace. -/
theorem fetchWithRetry_spec_witness :
    fetchWithRetry (fun i => if i ≥ 2 then .response 200 ("b") else .thrown) 3 1000 =
      (.ok ⟨200, "b"⟩,
        ((List.range 2).map (failBlock 1000)).flatten ++ [.fsleep DELAY_MS, .fattempt 2]) :=
  (fetchWithRetry_spec (fun i => if i ≥ 2 then .response 200 ("b") else .thrown) 1000).2.2
    2 (by decide) (by decide) (by decide)

/-! ## C4: isValidUrlToCrawl matches the scope rule of the spec -/

theorem ite_chain_eq_and (a b c : Bool) :
    (if !a then false else if !b then false else if !c then false else true) = (a && b && c) := by
  cases a <;> cases b <;> cases c <;> rfl

theorem mk_append_single_beq (sch s : List Char) (c : Char) :
    (String.mk (sch ++ [c]) == String.mk (s ++ [c])) = (sch == s) := by
  rw [Bool.eq_iff_iff]
  simp only [beq_iff_eq]
  constructor
  · intro h
    exact List.append_cancel_right (congrArg String.data h)
  · intro h
    rw [h]

/-- C4: for every URL string and base, `isValidUrlToCrawl` agrees with the
scope predicate as the specification words it, and the cross-host URL whose
path contains the allowed path start is out of scope. -/
theorem isValidUrlToCrawl_spec :
    (∀ url base, isValidUrlToCrawl url base = isInScope url base) ∧
    isValidUrlToCrawl ("https://other.com/zen.ac.jp/zen-gakuseibinran/p") startUrlObj = false := by
  refine ⟨?_, by decide⟩
  intro url base
  unfold isValidUrlToCrawl isInScope
  cases hp : parseList url.data with
  | none => rfl
  | some u =>
    have h1 : (u.protocol == "http:") = (u.scheme == ("http").data) := by
      have hlit : ("http:" : String) = String.mk (("http").data ++ [':']) := by decide
      rw [URLObj.protocol, hlit, mk_append_single_beq]
    have h2 : (u.protocol == "https:") = (u.scheme == ("https").data) := by
      have hlit : ("https:" : String) = String.mk (("https").data ++ [':']) := by decide
      rw [URLObj.protocol, hlit, mk_append_single_beq]
    simp only [ite_chain_eq_and]
    rw [h1, h2]

/-! ## C5: filename determinism (corrected) -/

/-- C5 counterexample: the claim says every two invocations of
`urlToFilename` on the same URL agree even for URLs that fail to parse, but
the fallback branch interpolates `Date.now()`, so two invocations at
different times differ on an unparseable URL. -/
theorem urlToFilename_not_deterministic :
    urlToFilename ("::") (".txt") 0 ≠ urlToFilename ("::") (".txt") 1 := by decide

/-- C5 (amended): for every URL that parses, `urlToFilename` does not
depend on the clock, so every two invocations on that URL agree. -/
theorem urlToFilename_deterministic (url extension : String) (t1 t2 : Nat)
    (h : (parseList url.data).isSome = true) :
    urlToFilename url extension t1 = urlToFilename url extension t2 := by
  unfold urlToFilename
  cases hp : parseList url.data with
  | none => rw [hp] at h; cases h
  | some u => rfl

/-- C5 witness for the amended claim, at a parseable URL and two distinct
times. -/
theorem urlToFilename_deterministic_witness :
    urlToFilename ("https://x/a") (".txt") 0 = urlToFilename ("https://x/a") (".txt") 1 :=
  urlToFilename_deterministic ("https://x/a") (".txt") 0 1 (by decide)

/-! ## C6: normalizeUrl -/

/-- C6: `normalizeUrl` is idempotent, strips the fragment of a parseable
URL (the concrete example of the specification), and returns the input
unchanged when parsing fails; being a total function, it never throws. -/
theorem normalizeUrl_spec :
    (∀ url, normalizeUrl (normalizeUrl url) = normalizeUrl url) ∧
    normalizeUrl ("https://x/a#frag") = "https://x/a" ∧
    (∀ url, parseList url.data = none → normalizeUrl url = url) := by
  refine ⟨?_, by decide, ?_⟩
  · intro url
    cases hp : parseList url.data with
    | none =>
      have h1 : normalizeUrl url = url := by
        unfold normalizeUrl
        rw [hp]
      rw [h1, h1]
    | some u =>
      have hwf : URLObj.WF { u with fragment := none } := by
        obtain ⟨a, b, c, d, e, f, g, h⟩ := parseList_WF hp
        exact ⟨a, b, c, d, e, f, g, h⟩
      have h1 : normalizeUrl url = String.mk (URLObj.toList { u with fragment := none }) := by
        unfold normalizeUrl
        rw [hp]
      have h2 : parseList (String.mk (URLObj.toList { u with fragment := none })).data
          = some { u with fragment := none } := parse_toList hwf
      rw [h1]
      unfold normalizeUrl
      rw [h2]
  · intro url hp
    unfold normalizeUrl
    rw [hp]

/-- C6 witness: the parse-failure branch, applied at a concrete unparseable
string. -/
theorem normalizeUrl_spec_witness : normalizeUrl ("::") = "::" :=
  normalizeUrl_spec.2.2 ("::") (by decide)

/-! ## C7: filename derivation (corrected) -/

/-- C7 counterexample: the source keeps hyphens (and underscores and dots),
which are not alphanumeric, so the derived name of `https://x/a-b` violates
the claimed character set. -/
theorem urlToFilename_keeps_nonalnum :
    urlToFilename ("https://x/a-b") ("") 0 = "a-b" ∧
    allReplacedClaim (urlToFilename ("https://x/a-b") ("") 0) = false := by decide

set_option maxRecDepth 8192 in
/-- C7 (amended): for every parseable URL the derived filename follows the
amended derivation rule; the empty result defaults to "index"; and a
150-character name keeps exactly its last 100 characters. -/
theorem urlToFilename_amended :
    (∀ url extension now u, parseList url.data = some u →
      urlToFilename url extension now = filenameSpec u extension) ∧
    urlToFilename ("https://x/") ("") 0 = "index" ∧
    urlToFilename (String.mk (("https://x/").data
        ++ List.replicate 50 'b' ++ List.replicate 100 'a')) ("") 0
      = String.mk (List.replicate 100 'a') := by
  refine ⟨?_, by decide, by decide⟩
  intro url extension now u h
  unfold urlToFilename filenameSpec
  rw [h]

/-- C7 witness for the amended claim, at a URL with a path, a query and a
kept hyphen. -/
theorem urlToFilename_amended_witness :
    urlToFilename ("https://x/p/q-r?s=1") (".txt") 7
      = filenameSpec ⟨("https").data, ("x").data, none, ("/p/q-r").data,
          some (("s=1").data), none⟩ (".txt") :=
  urlToFilename_amended.1 ("https://x/p/q-r?s=1") (".txt") 7 _ (by decide)

/-! ## Lemmas about the page processor -/

theorem processUrl_skip (w : World) (st : CrawlState) (url : String)
    (h : st.visitedUrls.contains url = true ∨ isValidUrlToCrawl url startUrlObj = false) :
    processUrl w st url = ([], st, []) := by
  unfold processUrl
  rcases h with h | h
  · rw [if_pos (by rw [h]; exact Bool.true_or _)]
  · rw [if_pos (by rw [h]; simp)]

theorem processUrl_visited_mono (w : World) (st : CrawlState) (url : String) :
    st.visitedUrls ⊆ (processUrl w st url).2.1.visitedUrls := by
  intro a ha
  unfold processUrl
  split
  · exact ha
  · split
    · exact List.mem_cons_of_mem url ha
    · split
      · exact List.mem_cons_of_mem url ha
      · split
        · split
          · exact List.mem_cons_of_mem url ha
          · exact List.mem_cons_of_mem url ha
        · exact List.mem_cons_of_mem url ha

theorem processUrl_visits_self (w : World) (st : CrawlState) (url : String)
    (hv : isValidUrlToCrawl url startUrlObj = true) :
    url ∈ (processUrl w st url).2.1.visitedUrls := by
  unfold processUrl
  split
  · rename_i hc
    rw [Bool.or_eq_true] at hc
    rcases hc with hc | hc
    · exact List.elem_iff.mp hc
    · rw [hv] at hc
      cases hc
  · split
    · exact List.mem_cons_self url _
    · split
      · exact List.mem_cons_self url _
      · split
        · split
          · exact List.mem_cons_self url _
          · exact List.mem_cons_self url _
        · exact List.mem_cons_self url _

theorem processUrl_visited_shape (w : World) (st : CrawlState) (url : String) :
    (processUrl w st url).2.1.visitedUrls = st.visitedUrls ∨
    (processUrl w st url).2.1.visitedUrls = url :: st.visitedUrls := by
  unfold processUrl
  split
  · exact Or.inl rfl
  · split
    · exact Or.inr rfl
    · split
      · exact Or.inr rfl
      · split
        · split
          · exact Or.inr rfl
          · exact Or.inr rfl
        · exact Or.inr rfl

theorem processUrl_trace_shape (w : World) (st : CrawlState) (url : String) :
    (processUrl w st url).2.2 = [] ∨
    ∃ tl, (processUrl w st url).2.2 = .mark url :: .fetch url :: tl := by
  unfold processUrl
  split
  · exact Or.inl rfl
  · split
    · exact Or.inr ⟨_, rfl⟩
    · split
      · exact Or.inr ⟨_, rfl⟩
      · split
        · split
          · exact Or.inr ⟨_, rfl⟩
          · exact Or.inr ⟨_, rfl⟩
        · exact Or.inr ⟨_, rfl⟩

theorem processUrl_count (w : World) (st : CrawlState) (url u : String) (e : PEvent)
    (he : e = .fetch u ∨ e = .extract u ∨ e = .record u) :
    (u ∈ st.visitedUrls → ((processUrl w st url).2.2).count e = 0) ∧
    ((processUrl w st url).2.2).count e ≤ 1 ∧
    (((processUrl w st url).2.2).count e ≥ 1 → u ∈ (processUrl w st url).2.1.visitedUrls) := by
  by_cases hu : u = url
  · subst hu
    unfold processUrl
    split
    · simp
    · rename_i hc
      rw [Bool.or_eq_true, not_or] at hc
      have hmem : u ∉ st.visitedUrls := fun hm =>
        hc.1 (List.elem_iff.mpr hm)
      refine ⟨fun hm => absurd hm hmem, ?_⟩
      split
      · rcases he with rfl | rfl | rfl <;>
          simp [List.count_cons, List.count_nil]
      · split
        · rcases he with rfl | rfl | rfl <;>
            simp [List.count_cons, List.count_nil]
        · split
          · split
            · rcases he with rfl | rfl | rfl <;>
                simp [List.count_cons, List.count_nil]
            · rcases he with rfl | rfl | rfl <;>
                simp [List.count_cons, List.count_nil]
          · rcases he with rfl | rfl | rfl <;>
              simp [List.count_cons, List.count_nil]
  · have hcnt : ((processUrl w st url).2.2).count e = 0 := by
      unfold processUrl
      split
      · rcases he with rfl | rfl | rfl <;> simp
      · split
        · rcases he with rfl | rfl | rfl <;>
            simp [List.count_cons, List.count_nil, hu]
        · split
          · rcases he with rfl | rfl | rfl <;>
              simp [List.count_cons, List.count_nil, hu]
          · split
            · split
              · rcases he with rfl | rfl | rfl <;>
                  simp [List.count_cons, List.count_nil, hu]
              · rcases he with rfl | rfl | rfl <;>
                  simp [List.count_cons, List.count_nil, hu]
            · rcases he with rfl | rfl | rfl <;>
                simp [List.count_cons, List.count_nil, hu]
    rw [hcnt]
    exact ⟨fun _ => rfl, Nat.zero_le 1, fun hge => absurd hge (by omega)⟩

theorem processUrl_no_dispatch (w : World) (st : CrawlState) (url : String) :
    dispatched (processUrl w st url).2.2 = [] := by
  unfold processUrl
  split
  · rfl
  · split
    · rfl
    · split
      · rfl
      · split
        · split
          · rfl
          · rfl
        · rfl

/-! ## Lemmas about batches and the crawl loop -/

theorem processBatch_visited_mono (w : World) (batch : List String) (st : CrawlState) :
    st.visitedUrls ⊆ (processBatch w batch st).2.1.visitedUrls := by
  induction batch generalizing st with
  | nil => exact fun a ha => ha
  | cons url rest ih =>
    intro a ha
    exact ih (processUrl w st url).2.1 (processUrl_visited_mono w st url ha)

theorem processBatch_count (w : World) (batch : List String) (st : CrawlState)
    (u : String) (e : PEvent)
    (he : e = .fetch u ∨ e = .extract u ∨ e = .record u) :
    (u ∈ st.visitedUrls → ((processBatch w batch st).2.2).count e = 0) ∧
    ((processBatch w batch st).2.2).count e ≤ 1 ∧
    (((processBatch w batch st).2.2).count e ≥ 1 →
      u ∈ (processBatch w batch st).2.1.visitedUrls) := by
  induction batch generalizing st with
  | nil =>
    have hnil : (processBatch w ([] : List String) st).2.2 = [] := rfl
    refine ⟨fun _ => rfl, ?_, ?_⟩
    · rw [hnil]
      simp
    · rw [hnil]
      intro hge
      simp at hge
  | cons url rest ih =>
    obtain ⟨hu1, hu2, hu3⟩ := processUrl_count w st url u e he
    obtain ⟨hr1, hr2, hr3⟩ := ih (processUrl w st url).2.1
    have hdis : PEvent.dispatch url ≠ e := by
      rcases he with rfl | rfl | rfl <;> simp
    have hcount : ((processBatch w (url :: rest) st).2.2).count e =
        ((processUrl w st url).2.2).count e
          + ((processBatch w rest (processUrl w st url).2.1).2.2).count e := by
      show ((PEvent.dispatch url :: (processUrl w st url).2.2
        ++ (processBatch w rest (processUrl w st url).2.1).2.2)).count e = _
      rw [List.count_append]
      rw [List.count_cons]
      simp [hdis]
    have hstate : (processBatch w (url :: rest) st).2.1 =
        (processBatch w rest (processUrl w st url).2.1).2.1 := rfl
    rw [hcount, hstate]
    refine ⟨?_, ?_, ?_⟩
    · intro hm
      rw [hu1 hm, hr1 (processUrl_visited_mono w st url hm)]
    · by_cases hz : ((processUrl w st url).2.2).count e = 0
      · rw [hz]
        omega
      · have h1 : u ∈ (processUrl w st url).2.1.visitedUrls := hu3 (by omega)
        rw [hr1 h1]
        omega
    · intro hge
      by_cases hz : ((processBatch w rest (processUrl w st url).2.1).2.2).count e ≥ 1
      · exact hr3 hz
      · have h1 : u ∈ (processUrl w st url).2.1.visitedUrls := hu3 (by omega)
        exact processBatch_visited_mono w rest (processUrl w st url).2.1 h1

theorem processBatch_dispatched (w : World) (batch : List String) (st : CrawlState) :
    dispatched (processBatch w batch st).2.2 = batch := by
  induction batch generalizing st with
  | nil => rfl
  | cons url rest ih =>
    show dispatched (PEvent.dispatch url :: (processUrl w st url).2.2
      ++ (processBatch w rest (processUrl w st url).2.1).2.2) = url :: rest
    unfold dispatched
    rw [List.filterMap_append]
    rw [List.filterMap_cons]
    have h1 := processUrl_no_dispatch w st url
    have h2 := ih (processUrl w st url).2.1
    unfold dispatched at h1 h2
    rw [h1, h2]
    rfl

theorem processBatch_visits (w : World) (batch : List String) (st : CrawlState) :
    ∀ u ∈ batch, isValidUrlToCrawl u startUrlObj = true →
      u ∈ (processBatch w batch st).2.1.visitedUrls := by
  induction batch generalizing st with
  | nil => intro u hu; cases hu
  | cons url rest ih =>
    intro u hu hv
    rcases List.mem_cons.mp hu with rfl | hu2
    · exact processBatch_visited_mono w rest (processUrl w st u).2.1
        (processUrl_visits_self w st u hv)
    · exact ih (processUrl w st url).2.1 u hu2 hv

theorem collectLinks_valid (anchors : List (Option String)) (url : String)
    (visited : List String) :
    ∀ u ∈ collectLinks anchors url visited,
      isValidUrlToCrawl u startUrlObj = true ∧ visited.contains u = false := by
  induction anchors with
  | nil => intro u hu; cases hu
  | cons a rest ih =>
    intro u hu
    match a with
    | none => exact ih u hu
    | some href =>
      unfold collectLinks at hu
      split at hu
      · exact ih u hu
      · split at hu
        · rename_i hcond
          rw [Bool.and_eq_true, Bool.not_eq_eq_eq_not, Bool.not_true] at hcond
          rcases List.mem_cons.mp hu with rfl | hu2
          · exact ⟨hcond.1, hcond.2⟩
          · exact ih u hu2
        · exact ih u hu

theorem processUrl_newUrls_valid (w : World) (st : CrawlState) (url : String) :
    ∀ u ∈ (processUrl w st url).1, isValidUrlToCrawl u startUrlObj = true := by
  intro u hu
  unfold processUrl at hu
  split at hu
  · cases hu
  · split at hu
    · cases hu
    · split at hu
      · cases hu
      · split at hu
        · split at hu
          · cases hu
          · exact (collectLinks_valid _ _ _ u hu).1
        · exact (collectLinks_valid _ _ _ u hu).1

theorem processBatch_newUrls_valid (w : World) (batch : List String) (st : CrawlState) :
    ∀ u ∈ (processBatch w batch st).1, isValidUrlToCrawl u startUrlObj = true := by
  induction batch generalizing st with
  | nil => intro u hu; cases hu
  | cons url rest ih =>
    intro u hu
    rcases List.mem_append.mp hu with hu1 | hu2
    · exact processUrl_newUrls_valid w st url u hu1
    · exact ih (processUrl w st url).2.1 u hu2

theorem buildFrontier_mem (newUrls : List String) (visited : List String) :
    ∀ acc, ∀ u ∈ buildFrontier newUrls visited acc,
      u ∈ acc ∨ (u ∈ newUrls ∧ visited.contains u = false) := by
  induction newUrls with
  | nil => intro acc u hu; exact Or.inl hu
  | cons v rest ih =>
    intro acc u hu
    unfold buildFrontier at hu
    split at hu
    · rename_i hcond
      rw [Bool.and_eq_true, Bool.not_eq_eq_eq_not, Bool.not_true] at hcond
      rcases ih (acc ++ [v]) u hu with hacc | ⟨hmem, hvis⟩
      · rcases List.mem_append.mp hacc with h1 | h2
        · exact Or.inl h1
        · rw [List.mem_singleton] at h2
          subst h2
          exact Or.inr ⟨List.mem_cons_self u rest, hcond.1⟩
      · exact Or.inr ⟨List.mem_cons_of_mem v hmem, hvis⟩
    · rcases ih acc u hu with hacc | ⟨hmem, hvis⟩
      · exact Or.inl hacc
      · exact Or.inr ⟨List.mem_cons_of_mem v hmem, hvis⟩

theorem contains_false_not_mem {l : List String} {a : String}
    (h : l.contains a = false) : a ∉ l := by
  intro hm
  have h2 : l.contains a = true := List.elem_iff.mpr hm
  rw [h2] at h
  cases h

theorem crawlLoop_visited_mono (w : World) (fuel : Nat) (frontier : List String)
    (st : CrawlState) :
    st.visitedUrls ⊆ (crawlLoop w fuel frontier st).1.visitedUrls := by
  induction fuel generalizing frontier st with
  | zero => exact fun a ha => ha
  | succ fuel ih =>
    intro a ha
    unfold crawlLoop
    split
    · exact ha
    · exact ih _ _ (processBatch_visited_mono w frontier st ha)

theorem crawlLoop_count (w : World) (fuel : Nat) (frontier : List String)
    (st : CrawlState) (u : String) (e : PEvent)
    (he : e = .fetch u ∨ e = .extract u ∨ e = .record u) :
    (u ∈ st.visitedUrls → ((crawlLoop w fuel frontier st).2.2).count e = 0) ∧
    ((crawlLoop w fuel frontier st).2.2).count e ≤ 1 ∧
    (((crawlLoop w fuel frontier st).2.2).count e ≥ 1 →
      u ∈ (crawlLoop w fuel frontier st).1.visitedUrls) := by
  induction fuel generalizing frontier st with
  | zero =>
    have hnil : (crawlLoop w 0 frontier st).2.2 = ([] : List PEvent) := rfl
    rw [hnil]
    refine ⟨fun _ => rfl, by simp, ?_⟩
    intro hge
    simp at hge
  | succ fuel ih =>
    unfold crawlLoop
    split
    · refine ⟨fun _ => rfl, by simp, ?_⟩
      intro hge
      simp at hge
    · obtain ⟨hb1, hb2, hb3⟩ := processBatch_count w frontier st u e he
      obtain ⟨hr1, hr2, hr3⟩ := ih
        (buildFrontier (processBatch w frontier st).1
          (processBatch w frontier st).2.1.visitedUrls [])
        (processBatch w frontier st).2.1
      rw [List.count_append]
      refine ⟨?_, ?_, ?_⟩
      · intro hm
        rw [hb1 hm, hr1 (processBatch_visited_mono w frontier st hm)]
      · by_cases hz : ((processBatch w frontier st).2.2).count e = 0
        · rw [hz]
          omega
        · have h1 : u ∈ (processBatch w frontier st).2.1.visitedUrls := hb3 (by omega)
          rw [hr1 h1]
          omega
      · intro hge
        by_cases hz : (((crawlLoop w fuel
            (buildFrontier (processBatch w frontier st).1
              (processBatch w frontier st).2.1.visitedUrls [])
            (processBatch w frontier st).2.1).2.2).count e) ≥ 1
        · exact hr3 hz
        · have h1 : u ∈ (processBatch w frontier st).2.1.visitedUrls := hb3 (by omega)
          exact crawlLoop_visited_mono w fuel _ _ h1

theorem crawlLoop_dispatched (w : World) (fuel : Nat) (frontier : List String)
    (st : CrawlState) :
    dispatched (crawlLoop w fuel frontier st).2.2
      = ((crawlLoop w fuel frontier st).2.1).flatten := by
  induction fuel generalizing frontier st with
  | zero => rfl
  | succ fuel ih =>
    unfold crawlLoop
    split
    · rfl
    · unfold dispatched
      rw [List.filterMap_append]
      have h1 := processBatch_dispatched w frontier st
      have h2 := ih (buildFrontier (processBatch w frontier st).1
          (processBatch w frontier st).2.1.visitedUrls [])
        (processBatch w frontier st).2.1
      unfold dispatched at h1 h2
      rw [h1, h2]
      rw [List.flatten_cons]

theorem crawlLoop_layers_fresh (w : World) (fuel : Nat) (frontier : List String)
    (st : CrawlState) :
    ∀ l ∈ (crawlLoop w fuel frontier st).2.1, ∀ u ∈ l,
      u ∈ frontier ∨ u ∉ st.visitedUrls := by
  induction fuel generalizing frontier st with
  | zero => intro l hl; cases hl
  | succ fuel ih =>
    intro l hl u hu
    unfold crawlLoop at hl
    split at hl
    · cases hl
    · rcases List.mem_cons.mp hl with rfl | hl2
      · exact Or.inl hu
      · rcases ih _ _ l hl2 u hu with hnext | hnv
        · rcases buildFrontier_mem (processBatch w frontier st).1
            (processBatch w frontier st).2.1.visitedUrls [] u hnext with hacc | ⟨_, hvis⟩
          · cases hacc
          · exact Or.inr (fun hm =>
              contains_false_not_mem hvis (processBatch_visited_mono w frontier st hm))
        · exact Or.inr (fun hm => hnv (processBatch_visited_mono w frontier st hm))

theorem crawlLoop_pairwise (w : World) (fuel : Nat) (frontier : List String)
    (st : CrawlState)
    (hfr : ∀ u ∈ frontier, isValidUrlToCrawl u startUrlObj = true ∨ u ∈ st.visitedUrls) :
    ((crawlLoop w fuel frontier st).2.1).Pairwise (fun l1 l2 => ∀ u, u ∈ l1 → u ∉ l2) := by
  induction fuel generalizing frontier st with
  | zero => exact List.Pairwise.nil
  | succ fuel ih =>
    unfold crawlLoop
    split
    · exact List.Pairwise.nil
    · rw [List.pairwise_cons]
      constructor
      · intro l2 hl2 u hu hul2
        have hv : u ∈ (processBatch w frontier st).2.1.visitedUrls := by
          rcases hfr u hu with hval | hm
          · exact processBatch_visits w frontier st u hu hval
          · exact processBatch_visited_mono w frontier st hm
        rcases crawlLoop_layers_fresh w fuel _ _ l2 hl2 u hul2 with hnext | hnv
        · rcases buildFrontier_mem (processBatch w frontier st).1
            (processBatch w frontier st).2.1.visitedUrls [] u hnext with hacc | ⟨_, hvis⟩
          · cases hacc
          · exact contains_false_not_mem hvis hv
        · exact hnv hv
      · refine ih _ _ (fun u hu => ?_)
        rcases buildFrontier_mem (processBatch w frontier st).1
          (processBatch w frontier st).2.1.visitedUrls [] u hu with hacc | ⟨hmem, _⟩
        · cases hacc
        · exact Or.inl (processBatch_newUrls_valid w frontier st u hmem)

theorem processUrl_visited_valid (w : World) (st : CrawlState) (url : String)
    (h : ∀ u ∈ st.visitedUrls, isValidUrlToCrawl u startUrlObj = true) :
    ∀ u ∈ (processUrl w st url).2.1.visitedUrls, isValidUrlToCrawl u startUrlObj = true := by
  intro u hu
  rcases processUrl_visited_shape w st url with hs | hs
  · rw [hs] at hu
    exact h u hu
  · rw [hs] at hu
    rcases List.mem_cons.mp hu with rfl | hu2
    · by_cases hv : isValidUrlToCrawl u startUrlObj = true
      · exact hv
      · have hskip := processUrl_skip w st u (Or.inr (Bool.eq_false_iff.mpr hv))
        rw [hskip] at hs
        exact absurd hs (by
          intro he
          have : u ∈ st.visitedUrls := by
            rw [he]
            exact List.mem_cons_self u _
          have hlen := congrArg List.length he
          simp at hlen)
    · exact h u hu2

theorem processBatch_visited_valid (w : World) (batch : List String) (st : CrawlState)
    (h : ∀ u ∈ st.visitedUrls, isValidUrlToCrawl u startUrlObj = true) :
    ∀ u ∈ (processBatch w batch st).2.1.visitedUrls,
      isValidUrlToCrawl u startUrlObj = true := by
  induction batch generalizing st with
  | nil => exact h
  | cons url rest ih =>
    exact ih (processUrl w st url).2.1 (processUrl_visited_valid w st url h)

theorem crawlLoop_visited_valid (w : World) (fuel : Nat) (frontier : List String)
    (st : CrawlState)
    (h : ∀ u ∈ st.visitedUrls, isValidUrlToCrawl u startUrlObj = true) :
    ∀ u ∈ (crawlLoop w fuel frontier st).1.visitedUrls,
      isValidUrlToCrawl u startUrlObj = true := by
  induction fuel generalizing frontier st with
  | zero => exact h
  | succ fuel ih =>
    unfold crawlLoop
    split
    · exact h
    · exact ih _ _ (processBatch_visited_valid w frontier st h)

theorem fetchWithRetry_error_of_allFail (oracle : Nat → AttemptOutcome) (delay : Nat)
    (h : ∀ i, i < 3 → attemptOk (oracle i) = false) :
    (fetchWithRetry oracle 3 delay).1 = .error () := by
  have h0 := h 0 (by omega)
  have h1 := h 1 (by omega)
  have h2 := h 2 (by omega)
  simp [fetchWithRetry, fetchWithRetryGo, h0, h1, h2]

/-! ## C1: at-most-once processing -/

/-- C1: a URL already in the visited set makes `processUrl` return an empty
result at once, with the state untouched and no events; every non-skipped
call marks the URL visited before the fetch (the trace starts with the mark
and only then the fetch); and across a whole run each URL is fetched,
extracted and recorded at most once. -/
theorem processUrl_at_most_once :
    (∀ w st url, url ∈ st.visitedUrls → processUrl w st url = ([], st, [])) ∧
    (∀ w st url, (processUrl w st url).2.2 = [] ∨
      ∃ tl, (processUrl w st url).2.2 = .mark url :: .fetch url :: tl) ∧
    (∀ w fuel u e, (e = .fetch u ∨ e = .extract u ∨ e = .record u) →
      ((runCrawl w fuel).2.2).count e ≤ 1) := by
  refine ⟨?_, processUrl_trace_shape, ?_⟩
  · intro w st url hm
    exact processUrl_skip w st url (Or.inl (List.elem_iff.mpr hm))
  · intro w fuel u e he
    exact (crawlLoop_count w fuel [normalizeUrl START_URL] ⟨[], [], []⟩ u e he).2.1

/-- C1 witness: a visited URL is skipped with nothing emitted, and in a
concrete one-layer run no URL has more than one fetch event. -/
theorem processUrl_at_most_once_witness :
    processUrl wEx ⟨[("a")], [], []⟩ ("a") = ([], ⟨[("a")], [], []⟩, []) ∧
    ((runCrawl wEx 1).2.2).count (PEvent.fetch ("u")) ≤ 1 :=
  ⟨processUrl_at_most_once.1 wEx ⟨[("a")], [], []⟩ ("a") (by decide),
   processUrl_at_most_once.2.2 wEx 1 ("u") (PEvent.fetch ("u")) (Or.inl rfl)⟩

/-! ## C2: breadth-first layering -/

/-- C2: the crawl loop halts exactly when the frontier is empty (an empty
frontier produces no layers and no events; a nonempty frontier always
produces its layer); the URLs are dispatched in layer order (the dispatch
sub-trace is the concatenation of the layers); and no URL occurs in two
layers of a run, so every URL of layer N is dispatched before any URL first
discovered during layer N, each next layer being built only from the
completed prior layer. -/
theorem crawl_bfs_layers :
    (∀ w fuel st, crawlLoop w fuel [] st = (st, [], [])) ∧
    (∀ w fuel frontier st, dispatched (crawlLoop w fuel frontier st).2.2
      = ((crawlLoop w fuel frontier st).2.1).flatten) ∧
    (∀ w fuel frontier st, frontier ≠ [] →
      ((crawlLoop w (fuel + 1) frontier st).2.1).head? = some frontier) ∧
    (∀ w fuel, ((runCrawl w fuel).2.1).Pairwise (fun l1 l2 => ∀ u, u ∈ l1 → u ∉ l2)) := by
  refine ⟨?_, crawlLoop_dispatched, ?_, ?_⟩
  · intro w fuel st
    cases fuel with
    | zero => rfl
    | succ fuel => rfl
  · intro w fuel frontier st hne
    unfold crawlLoop
    rw [if_neg (by simp [hne])]
    rfl
  · intro w fuel
    refine crawlLoop_pairwise w fuel [normalizeUrl START_URL] ⟨[], [], []⟩ ?_
    intro u hu
    rw [List.mem_singleton] at hu
    subst hu
    exact Or.inl (by decide)

/-- C2 witness: a nonempty frontier produces its layer as the head. -/
theorem crawl_bfs_layers_witness :
    ((crawlLoop wEx 1 [("a")] ⟨[], [], []⟩).2.1).head? = some [("a")] :=
  crawl_bfs_layers.2.2.1 wEx 0 [("a")] ⟨[], [], []⟩ (by decide)

/-! ## C8: error handling in processUrl (corrected) -/

/-- C8 counterexample: an error raised while resolving one link during the
link-enumeration step (`http://` looks absolute but is malformed, so its
resolution throws) is caught by the inner catch and only skips that link:
the call still returns the other discovered URL, not an empty result. -/
theorem processUrl_link_error_returns_links :
    resolveHref ("http://") (normalizeUrl START_URL) = none ∧
    (processUrl wC8 ⟨[], [], []⟩ (normalizeUrl START_URL)).1
      = [normalizeUrl ("https://sites.google.com/zen.ac.jp/zen-gakuseibinran/p2")] ∧
    (processUrl wC8 ⟨[], [], []⟩ (normalizeUrl START_URL)).1 ≠ [] := by
  refine ⟨by decide, by decide, by decide⟩

/-- C8 (amended): an error in the fetch step (retry exhaustion), the parse
step (null document), or the save step (write throw) is caught inside
`processUrl` and yields no discovered URLs; an error resolving one link is
caught by the inner catch and skips only that link; and nothing propagates
to the driver: every URL of a batch is dispatched no matter how the
previous ones failed. -/
theorem processUrl_errors_caught :
    (∀ w st url, (∀ i, i < 3 → attemptOk (w.oracle url i) = false) →
      (processUrl w st url).1 = []) ∧
    (∀ w st url resp, (fetchWithRetry (w.oracle url) 3 1000).1 = .ok resp →
      w.parseHtml resp.body = none → (processUrl w st url).1 = []) ∧
    (∀ w st url resp doc, (fetchWithRetry (w.oracle url) 3 1000).1 = .ok resp →
      w.parseHtml resp.body = some doc → extractedText doc ≠ "" →
      w.writeFails (OUTPUT_DIR w ++ "/" ++ urlToFilename url (".txt") w.now) = true →
      (processUrl w st url).1 = []) ∧
    (∀ href url visited rest, resolveHref href url = none →
      collectLinks (some href :: rest) url visited = collectLinks rest url visited) ∧
    (∀ w batch st, dispatched (processBatch w batch st).2.2 = batch) := by
  refine ⟨?_, ?_, ?_, ?_, processBatch_dispatched⟩
  · intro w st url hfail
    unfold processUrl
    split
    · rfl
    · rw [fetchWithRetry_error_of_allFail (w.oracle url) 1000 hfail]
  · intro w st url resp hfetch hparse
    unfold processUrl
    split
    · rfl
    · simp only [hfetch, hparse]
  · intro w st url resp doc hfetch hparse htext hwrite
    unfold processUrl
    split
    · rfl
    · simp only [hfetch, hparse]
      rw [if_pos htext]
  · intro href url visited rest hres
    simp only [collectLinks, hres]

/-- C8 witness for the amended claim: retry exhaustion yields no discovered
URLs at a concrete URL and world. -/
theorem processUrl_errors_caught_witness :
    (processUrl wEx ⟨[], [], []⟩ (normalizeUrl START_URL)).1 = [] :=
  processUrl_errors_caught.1 wEx ⟨[], [], []⟩ (normalizeUrl START_URL) (by decide)

/-! ## C9: a failed text write contributes nothing -/

/-- C9: when the write of the extracted text throws, the error is caught,
no ScrapedRecord is appended, no file is recorded, and the call returns no
discovered URLs, so the page contributes neither a record to the JSON index
nor links to the frontier. -/
theorem write_failure_no_record (w : World) (st : CrawlState) (url : String)
    (resp : Response) (doc : HtmlDoc)
    (hfetch : (fetchWithRetry (w.oracle url) 3 1000).1 = .ok resp)
    (hparse : w.parseHtml resp.body = some doc)
    (htext : extractedText doc ≠ "")
    (hwrite : w.writeFails (OUTPUT_DIR w ++ "/" ++ urlToFilename url (".txt") w.now) = true) :
    (processUrl w st url).1 = [] ∧
    (processUrl w st url).2.1.scrapedData = st.scrapedData ∧
    (processUrl w st url).2.1.files = st.files := by
  unfold processUrl
  split
  · exact ⟨rfl, rfl, rfl⟩
  · simp only [hfetch, hparse]
    rw [if_pos htext]
    exact ⟨rfl, rfl, rfl⟩

/-- C9 witness: a concrete page whose text write throws yields no record,
no file and no links. -/
theorem write_failure_no_record_witness :
    (processUrl wC9 ⟨[], [], []⟩ (normalizeUrl START_URL)).1 = [] ∧
    (processUrl wC9 ⟨[], [], []⟩ (normalizeUrl START_URL)).2.1.scrapedData = [] ∧
    (processUrl wC9 ⟨[], [], []⟩ (normalizeUrl START_URL)).2.1.files = [] :=
  write_failure_no_record wC9 ⟨[], [], []⟩ (normalizeUrl START_URL)
    ⟨200, ("page")⟩ ⟨some ("hello"), none, []⟩ rfl rfl (by decide) rfl

/-! ## C10: every visited URL is in scope -/

/-- C10: the scope check precedes the visited mark, so from any state whose
visited set is all in scope, every reachable state of the crawl loop keeps
the visited set in scope; in particular every URL ever added to the visited
set of a run from the start URL satisfies `isValidUrlToCrawl`. -/
theorem visitedUrls_in_scope :
    (∀ w fuel frontier st,
      (∀ u ∈ st.visitedUrls, isValidUrlToCrawl u startUrlObj = true) →
      ∀ u ∈ (crawlLoop w fuel frontier st).1.visitedUrls,
        isValidUrlToCrawl u startUrlObj = true) ∧
    (∀ w fuel u, u ∈ (runCrawl w fuel).1.visitedUrls →
      isValidUrlToCrawl u startUrlObj = true) := by
  refine ⟨crawlLoop_visited_valid, ?_⟩
  intro w fuel u hu
  exact crawlLoop_visited_valid w fuel [normalizeUrl START_URL] ⟨[], [], []⟩
    (fun v hv => absurd hv (List.not_mem_nil v)) u hu

/-- C10 witness: in a concrete run the sole visited URL, the normalized
start URL, is in scope. -/
theorem visitedUrls_in_scope_witness :
    isValidUrlToCrawl (normalizeUrl START_URL) startUrlObj = true :=
  visitedUrls_in_scope.2 wEx 1 (normalizeUrl START_URL) (by decide)

end ZenBinran
